import Mathlib

/-!
Verification development for the wasmCloud provider bindgen helper
(src/lib.rs). The Rust source walks the token tree produced by
wit-bindgen, collects structures and import functions, and generates
dispatch code. Here the relevant parts are shallowly embedded:
token trees become an inductive `Tok`, the visitor becomes a state
machine over an `Item` tree, and the signature transformer becomes a
pure function over token lists.
-/

namespace WitGen

/-- Model of proc_macro2 TokenTree: an identifier, a single punctuation
character, a bracketed group (rendered to its display string, as the
source only ever calls to_string on groups), or a literal. -/
inductive Tok where
  | ident (s : String) : Tok
  | punct (c : Char) : Tok
  | group (s : String) : Tok
  | litTok (s : String) : Tok
deriving DecidableEq, Repr

/-- Display string of a single token, as used by the source via
to_string on a TokenTree. -/
def tokToString : Tok → String
  | .ident s => s
  | .punct c => String.mk [c]
  | .group s => s
  | .litTok s => s

/-- Rendering of a syn Punctuated path (segments separated by the
double-colon separator) into a token list. -/
def pathToks : List String → List Tok
  | [] => []
  | [s] => [Tok.ident s]
  | s :: rest => Tok.ident s :: Tok.punct ':' :: Tok.punct ':' :: pathToks rest

/-- True when the token is a punctuation token. -/
def isPunctTok : Tok → Bool
  | .punct _ => true
  | _ => false

/-- ASCII uppercase conversion for one character. -/
def asciiUpper (c : Char) : Char :=
  if 'a' ≤ c ∧ c ≤ 'z' then Char.ofNat (c.toNat - 32) else c

/-- ASCII lowercase conversion for one character. -/
def asciiLower (c : Char) : Char :=
  if 'A' ≤ c ∧ c ≤ 'Z' then Char.ofNat (c.toNat + 32) else c

/-- Split a character list into words at underscore and hyphen
separators, dropping empty words.  `cur` is the current word collected
so far, in reverse. -/
def splitWordsAux : List Char → List Char → List (List Char)
  | [], cur => if cur.isEmpty then [] else [cur.reverse]
  | c :: rest, cur =>
    if c = '_' ∨ c = '-' then
      if cur.isEmpty then splitWordsAux rest [] else cur.reverse :: splitWordsAux rest []
    else
      splitWordsAux rest (c :: cur)

/-- Capitalize one word: first character uppercased, remainder
lowercased. -/
def capitalizeWord : List Char → List Char
  | [] => []
  | c :: rest => asciiUpper c :: rest.map asciiLower

/-- Model of heck ToUpperCamelCase for ASCII identifiers (snake or
kebab case), as used by the source on wit-bindgen generated names. -/
def toUpperCamelCase (s : String) : String :=
  String.mk ((splitWordsAux s.data []).foldl (fun acc w => acc ++ capitalizeWord w) [])

/-- Lookup in an association list keyed by strings, mirroring HashMap
get: the unique binding for the key, none when the key is absent. -/
def getStructPath : List (String × List String) → String → Option (List String)
  | [], _ => none
  | e :: rest, k => if e.1 = k then some e.2 else getStructPath rest k

/-- HashMap insert: overwrite the binding when the key is present,
otherwise append a new binding. -/
def insertAssoc : List (String × List String) → String → List String →
    List (String × List String)
  | [], k, v => [(k, v)]
  | e :: rest, k, v => if e.1 = k then (k, v) :: rest else e :: insertAssoc rest k v

/-- HashMap entry(k).or_default().push(a): extend the list bound to k,
creating the binding when absent. -/
def pushAssoc {α : Type} : List (String × List α) → String → α → List (String × List α)
  | [], k, a => [(k, [a])]
  | e :: rest, k, a =>
      if e.1 = k then (e.1, e.2 ++ [a]) :: rest else e :: pushAssoc rest k a

/-- The list bound to key k, empty when the key is absent. -/
def getEntry {α : Type} : List (String × List α) → String → List α
  | [], _ => []
  | e :: rest, k => if e.1 = k then e.2 else getEntry rest k

/-- Model of a syn ItemFn as far as the source consumes it: the
function name, the token list of each input argument, and the tokens
of the return type. -/
structure Fn where
  ident : String
  inputs : List (List Tok)
  output : List Tok
deriving DecidableEq, Repr

/-- Struct member tokens emitted for an argument matching the simple
reference pattern (name colon ampersand T), lines 606-635 of the
source: a str becomes the owned String, any other T is replaced by its
full path when the struct table knows it, else kept as is.  The
ampersand is dropped in every branch of this arm. -/
def simpleRefTokens (tbl : List (String × List String)) (n : String) (c1 : Char)
    (t : String) : List Tok :=
  if t = "str" then
    [Tok.ident n, Tok.punct c1, Tok.ident ("String")]
  else
    match getStructPath tbl t with
    | some v => [Tok.ident n, Tok.punct c1] ++ pathToks v
    | none => [Tok.ident n, Tok.punct c1, Tok.ident t]

/-- Fallback of the wrapped-reference arm (lines 690-700): the token
after the ampersand is looked up in the struct table; when found the
tokens before the inner type (name colon wrapper open-angle ampersand)
are kept, the type is replaced by its full path and the tail after it
is kept, so the reference token survives; when not found the whole
argument is passed through unchanged. -/
def wrappedRestTokens (tbl : List (String × List String)) (n : String) (c1 : Char)
    (w : String) (p p2 : Char) (rest : List Tok) : List Tok :=
  match rest.head? with
  | some t2 =>
      match getStructPath tbl (tokToString t2) with
      | some v =>
          [Tok.ident n, Tok.punct c1, Tok.ident w, Tok.punct p, Tok.punct p2]
            ++ pathToks v ++ rest.drop 1
      | none => Tok.ident n :: Tok.punct c1 :: Tok.ident w :: Tok.punct p :: Tok.punct p2 :: rest
  | none => Tok.ident n :: Tok.punct c1 :: Tok.ident w :: Tok.punct p :: Tok.punct p2 :: rest

/-- Struct member tokens for an argument matching the wrapped
reference pattern (lines 638-702).  The type section (everything from
the ampersand on) is inspected: a borrowed str keeps the wrapper and
becomes String (the source appends index five of the whole argument
here, which is the str identifier itself, and that faithful detail is
kept); a borrowed byte slice becomes a Vec of u8 inside the wrapper;
anything else goes through `wrappedRestTokens`. -/
def wrappedRefTokens (tbl : List (String × List String)) (n : String) (c1 : Char)
    (w : String) (p p2 : Char) (rest : List Tok) : List Tok :=
  match rest with
  | [Tok.ident s, Tok.punct _q] =>
      if s = "str" then
        [Tok.ident n, Tok.punct c1, Tok.ident w, Tok.punct p, Tok.ident ("String"), Tok.ident s]
      else wrappedRestTokens tbl n c1 w p p2 rest
  | [Tok.group g, Tok.punct _q] =>
      if g = "[u8]" then
        [Tok.ident n, Tok.punct c1, Tok.ident w, Tok.punct p,
         Tok.ident ("Vec"), Tok.punct '<', Tok.ident ("u8"), Tok.punct '>', Tok.punct '>']
      else wrappedRestTokens tbl n c1 w p p2 rest
  | _ => wrappedRestTokens tbl n c1 w p p2 rest

/-- One step of the member-building fold over a single argument
(lines 589-713 of the source): returns the member tokens for the
argument together with the names pushed onto invocation_args by that
arm.  The three arms mirror the Rust slice patterns: the simple
reference (exactly four tokens, third one an ampersand), the wrapped
reference (head shaped name colon wrapper open-angle ampersand with a
final punctuation token), and the pass-through arm, which pushes the
leading token as argument name only when it is an identifier. -/
def rewriteArg (tbl : List (String × List String)) (arg : List Tok) :
    List Tok × List String :=
  match arg with
  | [Tok.ident n, Tok.punct c1, Tok.punct p, Tok.ident t] =>
      if p = '&' then (simpleRefTokens tbl n c1 t, [n])
      else (arg, [n])
  | Tok.ident n :: Tok.punct c1 :: Tok.ident w :: Tok.punct p :: Tok.punct p2 :: rest =>
      if p = '<' ∧ p2 = '&' ∧ (rest.getLast?.map isPunctTok = some true) then
        (wrappedRefTokens tbl n c1 w p p2 rest, [n])
      else (arg, [n])
  | Tok.ident n :: _ => (arg, [n])
  | _ => (arg, [])

/-- The enumerated fold of line 583: arguments are processed left to
right, a comma separates consecutive members (emitted for every index
other than zero), and the pushed argument names accumulate in
positional order. -/
def structMembersAux (tbl : List (String × List String)) :
    List (List Tok) → Nat → List Tok × List String
  | [], _ => ([], [])
  | arg :: rest, idx =>
      let r := rewriteArg tbl arg
      let tail := structMembersAux tbl rest (idx + 1)
      ((if idx ≠ 0 then [Tok.punct ','] else []) ++ r.1 ++ tail.1, r.2 ++ tail.2)

/-- Member tokens and invocation argument names for a full input
list. -/
def structMembersAndArgs (tbl : List (String × List String)) (inputs : List (List Tok)) :
    List Tok × List String :=
  structMembersAux tbl inputs 0

/-- Model of the LatticeMethod record of the source (lines 521-535),
with idents and literal strings carried as plain strings. -/
structure LatticeMethod where
  lattice_method_name : String
  struct_name : String
  struct_members : List Tok
  func_name : String
  invocation_args : List String
  invocation_return : List Tok
deriving DecidableEq, Repr

/-- Construction of one LatticeMethod from a collected function
(lines 548-731): the wire name is Message. followed by the upper camel
case of the function name, the struct name is the upper camel cased
package, interface and function names followed by the Invocation
suffix, and members and argument names come from the member fold. -/
def buildLatticeMethod (pkg : String) (tbl : List (String × List String))
    (iface : String) (f : Fn) : LatticeMethod :=
  { lattice_method_name := "Message." ++ toUpperCamelCase f.ident
    struct_name :=
      toUpperCamelCase pkg ++ toUpperCamelCase iface ++ toUpperCamelCase f.ident
        ++ "Invocation"
    struct_members := (structMembersAndArgs tbl f.inputs).1
    func_name := f.ident
    invocation_args := (structMembersAndArgs tbl f.inputs).2
    invocation_return := f.output }

/-- Model of build_lattice_methods_by_wit_interface (lines 538-735).
The Rust iterates a HashMap of interface names to function lists; that
iteration order is not determined by the map contents, so the function
here takes the entries already laid out in some iteration order and
folds the nested loops over it, pushing each method into the bucket
keyed by the upper camel cased interface name. -/
def build_lattice_methods_by_wit_interface (pkg : String)
    (tbl : List (String × List String)) (entries : List (String × List Fn)) :
    List (String × List LatticeMethod) :=
  entries.foldl
    (fun acc e =>
      e.2.foldl
        (fun acc2 f => pushAssoc acc2 (toUpperCamelCase e.1) (buildLatticeMethod pkg tbl e.1 f))
        acc)
    []

/-- Model of a syn attribute Meta as far as the source inspects it: a
Meta::List with its path rendered to a string and its argument tokens,
or any other meta shape. -/
inductive Meta where
  | list (path : String) (tokens : List Tok) : Meta
  | otherMeta : Meta
deriving DecidableEq, Repr

/-- Model of a syn Attribute: outer or not, plus its meta. -/
structure Attr where
  outer : Bool
  meta : Meta
deriving DecidableEq, Repr

/-- Tokens appended to a derive list by the serde extension
(lines 477-495 of the source): a comma, the serde Serialize path, a
comma and the serde Deserialize path. -/
def serdeDeriveAppendToks : List Tok :=
  [Tok.punct ',', Tok.ident ("serde"), Tok.punct ':', Tok.punct ':', Tok.ident ("Serialize"),
   Tok.punct ',', Tok.ident ("serde"), Tok.punct ':', Tok.punct ':', Tok.ident ("Deserialize")]

/-- True when the attribute is an outer derive list, the only shape
the serde extension touches. -/
def isDeriveGroup (a : Attr) : Bool :=
  match a with
  | ⟨true, Meta.list p _⟩ => p == "derive"
  | _ => false

/-- The serde extension applied to one attribute (lines 464-503): an
outer derive list gets the serde paths appended to its tokens, every
other attribute is untouched. -/
def serdeExtendAttr (a : Attr) : Attr :=
  match a with
  | ⟨true, Meta.list p toks⟩ =>
      if p = "derive" then ⟨true, Meta.list p (toks ++ serdeDeriveAppendToks)⟩ else a
  | _ => a

/-- The serde extension applied to all attributes of a structure. -/
def serdeExtendAttrs (attrs : List Attr) : List Attr :=
  attrs.map serdeExtendAttr

/-- The argument tokens of an attribute, empty for non-list metas. -/
def attrTokens (a : Attr) : List Tok :=
  match a.meta with
  | Meta.list _ t => t
  | Meta.otherMeta => []

/-- Number of Serialize identifiers in a token list, used to witness
duplicate capability references. -/
def countSerializeRefs (toks : List Tok) : Nat :=
  toks.countP (fun t => t == Tok.ident ("Serialize"))

mutual
/-- Model of a syn Item as far as the visitor distinguishes shapes: a
module with its name and content, a free function, a structure with
its attributes, or any other item (whose default visit reaches no
further module, function or structure in the shapes wit-bindgen
emits). -/
inductive Item where
  | md (name : String) (content : Content) : Item
  | fnItem (f : Fn) : Item
  | structItem (name : String) (attrs : List Attr) : Item
  | otherItem : Item
/-- Content of a module: either none (a semicolon module) or a braced
item list. -/
inductive Content where
  | noBody : Content
  | body (items : Items) : Content
/-- Item list, as a mutual inductive so that traversal recursion and
induction stay structural. -/
inductive Items where
  | nil : Items
  | cons (hd : Item) (tl : Items) : Items
end

/-- Rust module name used by wit-bindgen for the exported interfaces
subtree. -/
def EXPORTS_MODULE_NAME : String := "exports"

/-- Model of WitBindgenOutputVisitor (lines 294-315): the detected
namespace and package, the stack of ancestor module names, the saved
exports module, the struct path table and the collected import
functions bucketed by interface name.  The two HashMaps are carried as
association lists in insertion order; their nondeterministic iteration
order is supplied separately where the source iterates them. -/
structure WitBindgenOutputVisitor where
  wit_ns : Option String
  wit_package : Option String
  parents : List String
  exports_ns_module : Option (String × Content)
  serde_extended_structs : List (String × List String)
  import_trait_fns : List (String × List Fn)

/-- The Default derive of the visitor: everything empty. -/
def initVisitor : WitBindgenOutputVisitor :=
  { wit_ns := none
    wit_package := none
    parents := []
    exports_ns_module := none
    serde_extended_structs := []
    import_trait_fns := [] }

/-- is_wit_ns of the source: the candidate equals the stored namespace
name. -/
def is_wit_ns (v : WitBindgenOutputVisitor) (s : String) : Bool :=
  decide (v.wit_ns = some s)

/-- at_wit_ns_module_child: the closest parent is the stored
namespace. -/
def at_wit_ns_module_child (v : WitBindgenOutputVisitor) : Bool :=
  match v.parents.getLast? with
  | some p => is_wit_ns v p
  | none => false

/-- at_child_of_module: the closest parent carries the given name. -/
def at_child_of_module (v : WitBindgenOutputVisitor) (name : String) : Bool :=
  decide (v.parents.getLast? = some name)

/-- at_grandchild_of_module: the parent one level up carries the given
name. -/
def at_grandchild_of_module (v : WitBindgenOutputVisitor) (name : String) : Bool :=
  if 2 ≤ v.parents.length then decide (v.parents[v.parents.length - 2]? = some name)
  else false

/-- at_exported_module: some ancestor is the exports module. -/
def at_exported_module (v : WitBindgenOutputVisitor) : Bool :=
  decide (EXPORTS_MODULE_NAME ∈ v.parents)

/-- The three assignments at the head of visit_item_mod_mut
(lines 374-403): the namespace is set by any level-zero module other
than exports, the package by any level-one module directly beneath the
namespace module and outside the exports subtree, and the exports
namespace module is saved at level one beneath exports.  All three
assignments are unconditional overwrites. -/
def modHeader (v : WitBindgenOutputVisitor) (name : String) (content : Content) :
    WitBindgenOutputVisitor :=
  let v1 :=
    if v.parents.length = 0 ∧ name ≠ EXPORTS_MODULE_NAME then
      { v with wit_ns := some name }
    else v
  let v2 :=
    if v1.parents.length = 1 ∧ at_wit_ns_module_child v1 ∧ ¬ at_exported_module v1 then
      { v1 with wit_package := some name }
    else v1
  if v2.parents.length = 1 ∧ at_child_of_module v2 EXPORTS_MODULE_NAME then
    { v2 with exports_ns_module := some (name, content) }
  else v2

mutual
/-- visit_item_mut (lines 425-518): functions inside a non-exported
grandchild of the package module are appended to the import bucket of
their interface module; structures are recorded in the struct path
table under their bare name with their full module path (later
insertions overwrite); modules go through visit_item_mod_mut, which
runs the header assignments, pushes the module name, visits the
content and pops. -/
def visit_item_mut (v : WitBindgenOutputVisitor) : Item → WitBindgenOutputVisitor
  | Item.md name content =>
      let v3 := modHeader v name content
      match content with
      | Content.noBody => v3
      | Content.body items =>
          let v4 := visit_items { v3 with parents := v3.parents ++ [name] } items
          { v4 with parents := v4.parents.dropLast }
  | Item.fnItem f =>
      match v.wit_package, v.parents.getLast? with
      | some pkg, some module_name =>
          if !(at_exported_module v) && at_grandchild_of_module v pkg then
            { v with import_trait_fns := pushAssoc v.import_trait_fns module_name f }
          else v
      | _, _ => v
  | Item.structItem name _attrs =>
      { v with
          serde_extended_structs :=
            insertAssoc v.serde_extended_structs name (v.parents ++ [name]) }
  | Item.otherItem => v
/-- Traversal of an item list in order. -/
def visit_items (v : WitBindgenOutputVisitor) : Items → WitBindgenOutputVisitor
  | Items.nil => v
  | Items.cons i rest => visit_items (visit_item_mut v i) rest
end

/-- Names that the traversal assigns to wit_ns, in traversal order:
the level-zero module names other than exports. -/
def nsNamesTop : Items → List String
  | Items.nil => []
  | Items.cons (Item.md n _) rest =>
      (if n ≠ EXPORTS_MODULE_NAME then [n] else []) ++ nsNamesTop rest
  | Items.cons _ rest => nsNamesTop rest

/-- Names of the direct module children of an item list. -/
def childModNames : Items → List String
  | Items.nil => []
  | Items.cons (Item.md n _) rest => n :: childModNames rest
  | Items.cons _ rest => childModNames rest

/-- Names that the traversal assigns to wit_package, in traversal
order: the direct module children of level-zero modules other than
exports. -/
def pkgNamesTop : Items → List String
  | Items.nil => []
  | Items.cons (Item.md n (Content.body children)) rest =>
      (if n ≠ EXPORTS_MODULE_NAME then childModNames children else []) ++ pkgNamesTop rest
  | Items.cons _ rest => pkgNamesTop rest

/-- Last element of a list of discoveries, or a default when nothing
was discovered. -/
def lastOr (l : List String) (d : Option String) : Option String :=
  match l.getLast? with
  | some x => some x
  | none => d

/-- Error surface of the generated dispatch routine (lines 182-213):
a malformed invocation error for an unmatched method name, a provider
error carrying the textual description of a failed provider method,
and the errors propagated unchanged by the question-mark operator from
the sdk deserialize and serialize calls. -/
inductive DispatchError where
  | malformed (msg : String) : DispatchError
  | provider (msg : String) : DispatchError
  | sdk (msg : String) : DispatchError
deriving DecidableEq, Repr

/-- True for the malformed constructor. -/
def isMalformedErr : DispatchError → Bool
  | DispatchError.malformed _ => true
  | _ => false

/-- True for the provider constructor. -/
def isProviderErr : DispatchError → Bool
  | DispatchError.provider _ => true
  | _ => false

/-- One arm of the generated dispatch match: the wire method name, the
sdk deserializer for the invocation record, the provider method with
its error already rendered to text, and the sdk serializer of the
result.  The sdk functions are external collaborators, so they appear
as parameters. -/
structure DispatchArm (α β : Type) where
  method : String
  deser : List Nat → Except String α
  invoke : α → Except String β
  ser : β → Except String (List Nat)

/-- The generated dispatch routine (lines 189-211): the method string
is matched against the wire names in order; on a match the payload is
deserialized (a failure propagates through the question mark), the
provider method is invoked (a failure becomes a provider error with
its description) and the result serialized (again propagating); with
no matching arm a malformed invocation error carrying the offending
method name is produced. -/
def dispatch {α β : Type} (arms : List (DispatchArm α β)) (method : String)
    (body : List Nat) : Except DispatchError (List Nat) :=
  match arms.find? (fun a => a.method == method) with
  | some arm =>
      match arm.deser body with
      | Except.error e => Except.error (DispatchError.sdk e)
      | Except.ok input =>
          match arm.invoke input with
          | Except.error e => Except.error (DispatchError.provider e)
          | Except.ok result =>
              match arm.ser result with
              | Except.error e => Except.error (DispatchError.sdk e)
              | Except.ok out => Except.ok out
  | none => Except.error (DispatchError.malformed ("Invalid method name " ++ method))

/-- Error text constant of the source (lines 44-46): a raw string that
contains nothing but two newlines. -/
def INVALID_INPUT_ERROR_TEXT : String := "\n\n"

/-- The back half of generate (lines 96-116): visit the parsed
wit-bindgen output, fail when no package name was recorded, otherwise
build the lattice methods.  The two reorder parameters stand for the
iteration orders of the import-function HashMap and of the resulting
methods-by-interface HashMap, which the source iterates at lines 546
and 116; the emitted per-interface code blocks follow the second
order, each block laying out its records, dispatch arms and trait
methods in the order of its method list. -/
def generateFromTree (items : Items)
    (reorder1 : List (String × List Fn) → List (String × List Fn))
    (reorder2 : List (String × List LatticeMethod) → List (String × List LatticeMethod)) :
    Except String (List (String × List LatticeMethod)) :=
  let v := visit_items initVisitor items
  match v.wit_package with
  | none => Except.error ("failed to parse top-level WIT package name while reading bindgen output")
  | some pkg =>
      Except.ok
        (reorder2
          (build_lattice_methods_by_wit_interface pkg v.serde_extended_structs
            (reorder1 v.import_trait_fns)))

/-- The front door of generate (lines 53-109): fewer than three tokens
is a fatal length error; the first two tokens must be an identifier
and a comma, else a fatal argument error; both messages end with the
blank INVALID_INPUT_ERROR_TEXT constant.  The remaining tokens go to
the vendored wit-bindgen generator, modelled as a parameter because it
is an external collaborator, and its output tree is then processed. -/
def generate (tokens : List Tok) (bindgen : List Tok → Items)
    (reorder1 : List (String × List Fn) → List (String × List Fn))
    (reorder2 : List (String × List LatticeMethod) → List (String × List LatticeMethod)) :
    Except String (List (String × List LatticeMethod)) :=
  if tokens.length < 3 then
    Except.error ("invalid token length, " ++ INVALID_INPUT_ERROR_TEXT)
  else
    match tokens with
    | Tok.ident _n :: Tok.punct c :: rest =>
        if c = ',' then generateFromTree (bindgen rest) reorder1 reorder2
        else Except.error ("missing/invalid arguments to macro, " ++ INVALID_INPUT_ERROR_TEXT)
    | _ => Except.error ("missing/invalid arguments to macro, " ++ INVALID_INPUT_ERROR_TEXT)

/-- Methods contributed to one bucket key by a run of the nested
collection loops, in order of the iterated entries. -/
def methodContrib (pkg : String) (tbl : List (String × List String)) (key : String) :
    List (String × List Fn) → List LatticeMethod
  | [] => []
  | e :: rest =>
      (if toUpperCamelCase e.1 = key then e.2.map (buildLatticeMethod pkg tbl e.1) else [])
        ++ methodContrib pkg tbl key rest

/-- Name of a parameter as carried by its leading identifier token,
the notion of parameter name used by the specification. -/
def headTokName : List Tok → String
  | Tok.ident nm :: _ => nm
  | _ => ""

/-! Concrete inputs used by the closed theorems further down. -/

/-- A collected function with no argument, used in the ordering
counterexample. -/
def faFn : Fn := { ident := "fa", inputs := [], output := [] }

/-- A second collected function with no argument. -/
def fbFn : Fn := { ident := "fb", inputs := [], output := [] }

/-- A collected function named greet, used to instantiate the naming
result. -/
def greetFn : Fn :=
  { ident := "greet"
    inputs := [[Tok.ident ("name"), Tok.punct ':', Tok.punct '&', Tok.ident ("str")]]
    output := [] }

/-- A tree with one namespace, one package and two interfaces, each
declaring one function. -/
def c1Tree : Items :=
  Items.cons
    (Item.md ("wasmcloud") (Content.body
      (Items.cons (Item.md ("example") (Content.body
        (Items.cons
          (Item.md ("iface_a") (Content.body (Items.cons (Item.fnItem faFn) Items.nil)))
          (Items.cons
            (Item.md ("iface_b") (Content.body (Items.cons (Item.fnItem fbFn) Items.nil)))
            Items.nil))))
        Items.nil)))
    Items.nil

/-- Macro input tokens with a leading identifier and comma. -/
def c1Tokens : List Tok := [Tok.ident ("MyProvider"), Tok.punct ',', Tok.ident ("x")]

/-- A tree with two level-zero modules, neither named exports. -/
def twoNsTree : Items :=
  Items.cons (Item.md ("alpha") (Content.body Items.nil))
    (Items.cons (Item.md ("beta") (Content.body Items.nil)) Items.nil)

/-- A tree whose namespace module holds two package modules. -/
def twoPkgTree : Items :=
  Items.cons
    (Item.md ("ns") (Content.body
      (Items.cons (Item.md ("p1") Content.noBody)
        (Items.cons (Item.md ("p2") Content.noBody) Items.nil))))
    Items.nil

/-- A tree whose only level-zero module is the exports module, so no
namespace root is ever discovered. -/
def exportsOnlyTree : Items :=
  Items.cons
    (Item.md ("exports") (Content.body
      (Items.cons (Item.md ("wasmcloud") (Content.body Items.nil)) Items.nil)))
    Items.nil

/-- A dispatch arm whose deserializer always fails, exercising the
propagated sdk error path. -/
def c2FailArm : DispatchArm Nat Nat :=
  { method := "Message.F"
    deser := fun _ => Except.error ("bad payload")
    invoke := fun v => Except.ok v
    ser := fun _ => Except.ok [] }

/-- The four parameters of the parameter-shape scenario: a borrowed
str, an optional borrowed byte slice, a borrowed custom structure and
a plain machine integer. -/
def c4Args : List (List Tok) :=
  [[Tok.ident ("a"), Tok.punct ':', Tok.punct '&', Tok.ident ("str")],
   [Tok.ident ("b"), Tok.punct ':', Tok.ident ("Option"), Tok.punct '<', Tok.punct '&',
    Tok.group ("[u8]"), Tok.punct '>'],
   [Tok.ident ("c"), Tok.punct ':', Tok.punct '&', Tok.ident ("CustomType")],
   [Tok.ident ("d"), Tok.punct ':', Tok.ident ("u32")]]

/-- A struct path table binding the custom structure of the scenario. -/
def c4Table : List (String × List String) :=
  [("CustomType", ["wasmcloud", "example", "iface", "CustomType"])]

/-- An outer derive attribute carrying one existing capability. -/
def cloneDeriveAttr : Attr := { outer := true, meta := Meta.list ("derive") [Tok.ident ("Clone")] }

/-- Shape test for the first two input tokens: an identifier followed
by a comma, the shape the front door demands. -/
def firstTwoShapeOk : List Tok → Bool
  | Tok.ident _ :: Tok.punct c :: _ => decide (c = ',')
  | _ => false

/-- A stand-in for the vendored generator that returns the empty
tree. -/
def nilBindgen : List Tok → Items := fun _ => Items.nil

/-- A stand-in for the vendored generator that returns the
two-interface tree. -/
def c1Bindgen : List Tok → Items := fun _ => c1Tree

/-! Association list lemmas, describing the HashMap entry-push used
by the method collection. -/

theorem getEntry_pushAssoc_same {α : Type} (l : List (String × List α)) (k : String) (a : α) :
    getEntry (pushAssoc l k a) k = getEntry l k ++ [a] := by
  induction l with
  | nil => simp [pushAssoc, getEntry]
  | cons e rest ih =>
    by_cases h : e.1 = k
    · simp [pushAssoc, getEntry, h]
    · simp [pushAssoc, getEntry, h, ih]

theorem getEntry_pushAssoc_ne {α : Type} (l : List (String × List α)) (k k' : String) (a : α)
    (h : k' ≠ k) : getEntry (pushAssoc l k a) k' = getEntry l k' := by
  induction l with
  | nil =>
    have hk : ¬ (k = k') := fun hh => h hh.symm
    simp [pushAssoc, getEntry, hk]
  | cons e rest ih =>
    by_cases he : e.1 = k
    · have hne : ¬ (e.1 = k') := by rw [he]; exact fun hh => h hh.symm
      have hkk : ¬ (k = k') := fun hh => h hh.symm
      simp [pushAssoc, getEntry, he, hne, hkk]
    · simp [pushAssoc, getEntry, he, ih]

theorem foldl_pushAssoc_getEntry_same {α β : Type} (mkf : β → α) (k : String) (fns : List β) :
    ∀ acc : List (String × List α),
      getEntry (fns.foldl (fun a f => pushAssoc a k (mkf f)) acc) k
        = getEntry acc k ++ fns.map mkf := by
  induction fns with
  | nil => intro acc; simp
  | cons f fs ih =>
    intro acc
    rw [List.foldl_cons, ih, getEntry_pushAssoc_same]
    simp

theorem foldl_pushAssoc_getEntry_ne {α β : Type} (mkf : β → α) (k k' : String) (h : k' ≠ k)
    (fns : List β) :
    ∀ acc : List (String × List α),
      getEntry (fns.foldl (fun a f => pushAssoc a k (mkf f)) acc) k' = getEntry acc k' := by
  induction fns with
  | nil => intro acc; rfl
  | cons f fs ih =>
    intro acc
    rw [List.foldl_cons, ih, getEntry_pushAssoc_ne _ _ _ _ h]

theorem build_getEntry (pkg : String) (tbl : List (String × List String)) (key : String) :
    ∀ (entries : List (String × List Fn)) (acc : List (String × List LatticeMethod)),
      getEntry
        (entries.foldl
          (fun acc e =>
            e.2.foldl
              (fun acc2 f =>
                pushAssoc acc2 (toUpperCamelCase e.1) (buildLatticeMethod pkg tbl e.1 f))
              acc)
          acc) key
        = getEntry acc key ++ methodContrib pkg tbl key entries := by
  intro entries
  induction entries with
  | nil => intro acc; simp [methodContrib]
  | cons e es ih =>
    intro acc
    rw [List.foldl_cons, ih]
    by_cases hk : toUpperCamelCase e.1 = key
    · rw [← hk, foldl_pushAssoc_getEntry_same]
      simp [methodContrib, hk]
    · rw [foldl_pushAssoc_getEntry_ne _ _ _ (fun hh => hk hh.symm)]
      simp [methodContrib, hk]

theorem mem_methodContrib (pkg : String) (tbl : List (String × List String))
    (iface : String) (fns : List Fn) (f : Fn) :
    ∀ entries : List (String × List Fn), (iface, fns) ∈ entries → f ∈ fns →
      buildLatticeMethod pkg tbl iface f ∈ methodContrib pkg tbl (toUpperCamelCase iface) entries := by
  intro entries
  induction entries with
  | nil => intro he; cases he
  | cons e es ih =>
    intro he hf
    rcases List.mem_cons.mp he with h | h
    · subst h
      simp only [methodContrib]
      refine List.mem_append_left _ ?_
      rw [if_pos trivial]
      exact List.mem_map.mpr ⟨f, hf, rfl⟩
    · exact List.mem_append_right _ (ih h hf)

/-! Fresh-key lemmas: pushing into a bucket whose key is absent
appends a new binding at the end, and repeated pushes extend it in
order.  These give the per-interface ordering result. -/

theorem pushAssoc_fresh {α : Type} (l : List (String × List α)) (k : String) (a : α)
    (h : ∀ e ∈ l, e.1 ≠ k) : pushAssoc l k a = l ++ [(k, [a])] := by
  induction l with
  | nil => rfl
  | cons e rest ih =>
    have h0 : e.1 ≠ k := h e (List.mem_cons_self e rest)
    simp only [pushAssoc, if_neg h0]
    rw [ih (fun e2 he2 => h e2 (List.mem_cons_of_mem e he2))]
    rfl

theorem pushAssoc_last {α : Type} (acc : List (String × List α)) (k : String) (ms : List α)
    (a : α) (h : ∀ e ∈ acc, e.1 ≠ k) :
    pushAssoc (acc ++ [(k, ms)]) k a = acc ++ [(k, ms ++ [a])] := by
  induction acc with
  | nil => simp [pushAssoc]
  | cons e rest ih =>
    have h0 : e.1 ≠ k := h e (List.mem_cons_self e rest)
    simp only [List.cons_append, pushAssoc, if_neg h0, List.append_eq]
    rw [ih (fun e2 he2 => h e2 (List.mem_cons_of_mem e he2))]

theorem foldl_pushAssoc_ext {α β : Type} (mkf : β → α) (k : String) (fns : List β) :
    ∀ (acc : List (String × List α)) (ms : List α), (∀ e ∈ acc, e.1 ≠ k) →
      fns.foldl (fun a f => pushAssoc a k (mkf f)) (acc ++ [(k, ms)])
        = acc ++ [(k, ms ++ fns.map mkf)] := by
  induction fns with
  | nil => intro acc ms _; simp
  | cons f fs ih =>
    intro acc ms h
    rw [List.foldl_cons, pushAssoc_last _ _ _ _ h, ih acc (ms ++ [mkf f]) h]
    simp

theorem foldl_pushAssoc_fresh {α β : Type} (mkf : β → α) (k : String) (fns : List β)
    (hne : fns ≠ []) :
    ∀ acc : List (String × List α), (∀ e ∈ acc, e.1 ≠ k) →
      fns.foldl (fun a f => pushAssoc a k (mkf f)) acc = acc ++ [(k, fns.map mkf)] := by
  cases fns with
  | nil => exact absurd rfl hne
  | cons f fs =>
    intro acc h
    rw [List.foldl_cons, pushAssoc_fresh _ _ _ h, foldl_pushAssoc_ext _ _ _ acc [mkf f] h]
    rfl

theorem build_foldl_nodup (pkg : String) (tbl : List (String × List String)) :
    ∀ (entries : List (String × List Fn)) (acc : List (String × List LatticeMethod)),
      (∀ e ∈ entries, e.2 ≠ []) →
      ((entries.map fun e => toUpperCamelCase e.1).Nodup) →
      (∀ e ∈ entries, ∀ e2 ∈ acc, e2.1 ≠ toUpperCamelCase e.1) →
      entries.foldl
        (fun acc e =>
          e.2.foldl
            (fun acc2 f =>
              pushAssoc acc2 (toUpperCamelCase e.1) (buildLatticeMethod pkg tbl e.1 f))
            acc)
        acc
        = acc ++ entries.map
            (fun e => (toUpperCamelCase e.1, e.2.map (buildLatticeMethod pkg tbl e.1))) := by
  intro entries
  induction entries with
  | nil => intro acc _ _ _; simp
  | cons e es ih =>
    intro acc h1 h2 h3
    rw [List.foldl_cons,
      foldl_pushAssoc_fresh _ _ _ (h1 e (List.mem_cons_self e es)) acc
        (fun e2 he2 => h3 e (List.mem_cons_self e es) e2 he2)]
    rw [List.map_cons] at h2
    obtain ⟨hhead, htail⟩ := List.nodup_cons.mp h2
    rw [ih (acc ++ [(toUpperCamelCase e.1, e.2.map (buildLatticeMethod pkg tbl e.1))])
      (fun e2 he2 => h1 e2 (List.mem_cons_of_mem e he2))
      htail
      (by
        intro e' he' e2 he2
        rcases List.mem_append.mp he2 with hin | hin
        · exact h3 e' (List.mem_cons_of_mem e he') e2 hin
        · have heq : e2 = (toUpperCamelCase e.1, e.2.map (buildLatticeMethod pkg tbl e.1)) := by
            simpa using hin
          rw [heq]
          intro hcontra
          exact hhead (List.mem_map.mpr ⟨e', he', hcontra.symm⟩))]
    simp

/-! Lemmas about the per-argument rewrite. -/

theorem rewriteArg_snd (tbl : List (String × List String)) (n : String) (r : List Tok) :
    (rewriteArg tbl (Tok.ident n :: r)).2 = [n] := by
  unfold rewriteArg
  split <;> first
    | rfl
    | (split_ifs <;> simp_all)
    | simp_all

/-- C7: for every collected function and every parameter, whatever
rewrite branch the parameter falls into, the name carried by the
leading identifier token is appended to the invocation argument list,
and the list keeps the positional order of the parameters. -/
theorem c7_invocation_arg_order (tbl : List (String × List String)) (args : List (List Tok))
    (h : ∀ arg ∈ args, ∃ nm rest, arg = Tok.ident nm :: rest) :
    (structMembersAndArgs tbl args).2 = args.map headTokName := by
  have hgen : ∀ (args : List (List Tok)),
      (∀ arg ∈ args, ∃ nm rest, arg = Tok.ident nm :: rest) →
      ∀ idx, (structMembersAux tbl args idx).2 = args.map headTokName := by
    intro args
    induction args with
    | nil => intro _ idx; rfl
    | cons a as ih =>
      intro hall idx
      obtain ⟨nm, rest, ha⟩ := hall a (List.mem_cons_self a as)
      have hstep : (structMembersAux tbl (a :: as) idx).2
          = (rewriteArg tbl a).2 ++ (structMembersAux tbl as (idx + 1)).2 := rfl
      rw [hstep, ha, rewriteArg_snd,
        ih (fun arg harg => hall arg (List.mem_cons_of_mem a harg)) (idx + 1)]
      simp [headTokName]
  exact hgen args h 0

/-- C7 witness: the invocation argument list of the four-parameter
scenario function is its parameter names in declaration order. -/
theorem c7_invocation_arg_order_witness :
    (structMembersAndArgs c4Table c4Args).2 = c4Args.map headTokName := by
  refine c7_invocation_arg_order c4Table c4Args ?_
  intro arg harg
  rcases List.mem_cons.mp harg with h | h
  · exact ⟨"a", _, h⟩
  rcases List.mem_cons.mp h with h | h
  · exact ⟨"b", _, h⟩
  rcases List.mem_cons.mp h with h | h
  · exact ⟨"c", _, h⟩
  rcases List.mem_cons.mp h with h | h
  · exact ⟨"d", _, h⟩
  · cases h

/-- C3: for a collected function f of interface i in package p, with
all three identifiers non-empty, the emitted method carries the wire
name Message. followed by upper camel f, and the invocation record
name upper-camel p, then upper-camel i, then upper-camel f, then the
Invocation suffix; the method lands in the bucket of its interface. -/
theorem c3_wire_and_record_names (pkg : String) (tbl : List (String × List String))
    (entries : List (String × List Fn)) (iface : String) (fns : List Fn) (f : Fn)
    (hpkg : pkg ≠ "") (hiface : iface ≠ "") (hfn : f.ident ≠ "")
    (he : (iface, fns) ∈ entries) (hf : f ∈ fns) :
    buildLatticeMethod pkg tbl iface f
        ∈ getEntry (build_lattice_methods_by_wit_interface pkg tbl entries)
            (toUpperCamelCase iface)
      ∧ (buildLatticeMethod pkg tbl iface f).lattice_method_name
          = "Message." ++ toUpperCamelCase f.ident
      ∧ (buildLatticeMethod pkg tbl iface f).struct_name
          = toUpperCamelCase pkg ++ toUpperCamelCase iface ++ toUpperCamelCase f.ident
              ++ "Invocation" := by
  refine ⟨?_, rfl, rfl⟩
  unfold build_lattice_methods_by_wit_interface
  rw [build_getEntry]
  exact List.mem_append_right _ (mem_methodContrib pkg tbl iface fns f entries he hf)

/-- C3 witness: the greet function of interface iface_a in package
example yields wire name Message.Greet and record name
ExampleIfaceAGreetInvocation. -/
theorem c3_wire_and_record_names_witness :
    buildLatticeMethod ("example") [] ("iface_a") greetFn
        ∈ getEntry
            (build_lattice_methods_by_wit_interface ("example") [] [("iface_a", [greetFn])])
            (toUpperCamelCase ("iface_a"))
      ∧ (buildLatticeMethod ("example") [] ("iface_a") greetFn).lattice_method_name
          = "Message." ++ toUpperCamelCase ("greet")
      ∧ (buildLatticeMethod ("example") [] ("iface_a") greetFn).struct_name
          = toUpperCamelCase ("example") ++ toUpperCamelCase ("iface_a")
              ++ toUpperCamelCase ("greet") ++ "Invocation" :=
  c3_wire_and_record_names ("example") [] [("iface_a", [greetFn])] "iface_a" [greetFn] greetFn
    (by decide) (by decide) (by decide)
    (List.mem_cons_self _ _) (List.mem_cons_self _ _)

/-- C4: on the parameter list (a borrowed str, b optional borrowed
bytes, c borrowed custom structure present in the path table, d plain
u32) the record fields are a String, b Option of Vec u8, c the fully
qualified custom type, d u32, in that order, and the forwarding list
is a b c d. -/
theorem c4_parameter_shape_coverage (tbl : List (String × List String)) (path : List String)
    (hc : getStructPath tbl ("CustomType") = some path) :
    structMembersAndArgs tbl c4Args =
      ([Tok.ident ("a"), Tok.punct ':', Tok.ident ("String"), Tok.punct ',',
        Tok.ident ("b"), Tok.punct ':', Tok.ident ("Option"), Tok.punct '<',
        Tok.ident ("Vec"), Tok.punct '<', Tok.ident ("u8"), Tok.punct '>', Tok.punct '>',
        Tok.punct ',', Tok.ident ("c"), Tok.punct ':'] ++ pathToks path
        ++ [Tok.punct ',', Tok.ident ("d"), Tok.punct ':', Tok.ident ("u32")],
       ["a", "b", "c", "d"]) := by
  simp [structMembersAndArgs, c4Args, structMembersAux, rewriteArg, simpleRefTokens,
    wrappedRefTokens, wrappedRestTokens, hc, isPunctTok]

/-- C4 witness: the scenario evaluated at a concrete path table. -/
theorem c4_parameter_shape_coverage_witness :
    structMembersAndArgs c4Table c4Args =
      ([Tok.ident ("a"), Tok.punct ':', Tok.ident ("String"), Tok.punct ',',
        Tok.ident ("b"), Tok.punct ':', Tok.ident ("Option"), Tok.punct '<',
        Tok.ident ("Vec"), Tok.punct '<', Tok.ident ("u8"), Tok.punct '>', Tok.punct '>',
        Tok.punct ',', Tok.ident ("c"), Tok.punct ':']
        ++ pathToks ["wasmcloud", "example", "iface", "CustomType"]
        ++ [Tok.punct ',', Tok.ident ("d"), Tok.punct ':', Tok.ident ("u32")],
       ["a", "b", "c", "d"]) :=
  c4_parameter_shape_coverage c4Table ["wasmcloud", "example", "iface", "CustomType"] rfl

/-- C10: for a parameter shaped name colon Wrapper angle ampersand T
angle, with T neither str nor a byte-slice group: when T is in the
struct path table the emitted field keeps the wrapper and the
reference token and swaps T for its fully qualified path; when T is
absent the parameter passes through unchanged, reference included. -/
theorem c10_wrapped_custom_reference (tbl : List (String × List String)) (n w T : String)
    (path : List String) (hT : T ≠ "str") :
    (getStructPath tbl T = some path →
      rewriteArg tbl [Tok.ident n, Tok.punct ':', Tok.ident w, Tok.punct '<', Tok.punct '&',
          Tok.ident T, Tok.punct '>']
        = ([Tok.ident n, Tok.punct ':', Tok.ident w, Tok.punct '<', Tok.punct '&']
            ++ pathToks path ++ [Tok.punct '>'], [n]))
    ∧ (getStructPath tbl T = none →
      rewriteArg tbl [Tok.ident n, Tok.punct ':', Tok.ident w, Tok.punct '<', Tok.punct '&',
          Tok.ident T, Tok.punct '>']
        = ([Tok.ident n, Tok.punct ':', Tok.ident w, Tok.punct '<', Tok.punct '&',
            Tok.ident T, Tok.punct '>'], [n])) := by
  constructor <;> intro h <;>
    simp [rewriteArg, wrappedRefTokens, wrappedRestTokens, tokToString, hT, h, isPunctTok]

/-- C10 witness: both table outcomes evaluated at the custom type of
the scenario table. -/
theorem c10_wrapped_custom_reference_witness :
    (rewriteArg c4Table [Tok.ident ("x"), Tok.punct ':', Tok.ident ("Wrapper"), Tok.punct '<',
        Tok.punct '&', Tok.ident ("CustomType"), Tok.punct '>']
      = ([Tok.ident ("x"), Tok.punct ':', Tok.ident ("Wrapper"), Tok.punct '<', Tok.punct '&']
          ++ pathToks ["wasmcloud", "example", "iface", "CustomType"] ++ [Tok.punct '>'],
         ["x"]))
    ∧ (rewriteArg [] [Tok.ident ("x"), Tok.punct ':', Tok.ident ("Wrapper"), Tok.punct '<',
        Tok.punct '&', Tok.ident ("CustomType"), Tok.punct '>']
      = ([Tok.ident ("x"), Tok.punct ':', Tok.ident ("Wrapper"), Tok.punct '<', Tok.punct '&',
          Tok.ident ("CustomType"), Tok.punct '>'], ["x"])) :=
  ⟨(c10_wrapped_custom_reference c4Table ("x") "Wrapper" "CustomType"
      ["wasmcloud", "example", "iface", "CustomType"] (by decide)).1 rfl,
   (c10_wrapped_custom_reference [] "x" "Wrapper" "CustomType"
      ["wasmcloud", "example", "iface", "CustomType"] (by decide)).2 rfl⟩

/-- C2 counterexample: a dispatch arm whose sdk deserializer fails
makes the dispatch routine return the propagated sdk error, which is
neither the malformed-request kind nor the provider kind, so the two
claimed kinds are not exhaustive. -/
theorem c2_third_error_kind_counterexample :
    dispatch [c2FailArm] "Message.F" [0] = Except.error (DispatchError.sdk ("bad payload"))
      ∧ isMalformedErr (DispatchError.sdk ("bad payload")) = false
      ∧ isProviderErr (DispatchError.sdk ("bad payload")) = false :=
  ⟨rfl, rfl, rfl⟩

/-- C2 amended: every error of the generated dispatch routine is the
malformed-request error carrying the offending method string, a
provider error carrying a failure description, or an error propagated
by the question-mark operator from the sdk deserialize or serialize
call; there is no further kind. -/
theorem c2_dispatch_error_kinds {α β : Type} (arms : List (DispatchArm α β)) (method : String)
    (body : List Nat) (err : DispatchError)
    (h : dispatch arms method body = Except.error err) :
    err = DispatchError.malformed ("Invalid method name " ++ method)
      ∨ (∃ s, err = DispatchError.provider s)
      ∨ (∃ s, err = DispatchError.sdk s) := by
  unfold dispatch at h
  split at h
  · split at h
    · simp only [Except.error.injEq] at h
      exact Or.inr (Or.inr ⟨_, h.symm⟩)
    · split at h
      · simp only [Except.error.injEq] at h
        exact Or.inr (Or.inl ⟨_, h.symm⟩)
      · split at h
        · simp only [Except.error.injEq] at h
          exact Or.inr (Or.inr ⟨_, h.symm⟩)
        · cases h
  · simp only [Except.error.injEq] at h
    exact Or.inl h.symm

/-- C2 witness: the unmatched-name case on an empty arm list. -/
theorem c2_dispatch_error_kinds_witness :
    DispatchError.malformed ("Invalid method name " ++ "M")
        = DispatchError.malformed ("Invalid method name " ++ "M")
      ∨ (∃ s, DispatchError.malformed ("Invalid method name " ++ "M") = DispatchError.provider s)
      ∨ (∃ s, DispatchError.malformed ("Invalid method name " ++ "M") = DispatchError.sdk s) :=
  c2_dispatch_error_kinds ([] : List (DispatchArm Nat Nat)) "M" [] _ rfl

/-- C9 counterexample: on an empty invocation the generation aborts,
but the message is the fixed prefix followed by the designated error
text constant, and that constant consists of two newlines only, so the
message does not name the expected input shape. -/
theorem c9_blank_message_counterexample :
    generate [] nilBindgen id id
        = Except.error ("invalid token length, " ++ INVALID_INPUT_ERROR_TEXT)
      ∧ INVALID_INPUT_ERROR_TEXT = "\n\n"
      ∧ (INVALID_INPUT_ERROR_TEXT.data.all fun c => c == '\n') = true :=
  ⟨rfl, rfl, by decide⟩

/-- C9 amended: fewer than three tokens, or a first pair other than an
identifier and a comma, aborts generation before any generation work
with the fixed diagnostic prefix followed by the blank error-text
constant; the message does not describe the expected shape. -/
theorem c9_input_shape_abort (tokens : List Tok) (bindgen : List Tok → Items)
    (r1 : List (String × List Fn) → List (String × List Fn))
    (r2 : List (String × List LatticeMethod) → List (String × List LatticeMethod)) :
    (tokens.length < 3 →
      generate tokens bindgen r1 r2
        = Except.error ("invalid token length, " ++ INVALID_INPUT_ERROR_TEXT))
    ∧ (3 ≤ tokens.length → firstTwoShapeOk tokens = false →
      generate tokens bindgen r1 r2
        = Except.error ("missing/invalid arguments to macro, " ++ INVALID_INPUT_ERROR_TEXT))
    ∧ INVALID_INPUT_ERROR_TEXT = "\n\n" := by
  refine ⟨?_, ?_, rfl⟩
  · intro h
    unfold generate
    rw [if_pos h]
  · intro h3 hshape
    unfold generate
    rw [if_neg (by omega)]
    rcases tokens with _ | ⟨t1, rest⟩
    · simp at h3
    rcases t1 with s | c | g | l
    case punct => rfl
    case group => rfl
    case litTok => rfl
    case ident =>
      rcases rest with _ | ⟨t2, rest2⟩
      · simp at h3
      rcases t2 with s2 | c2 | g2 | l2
      case punct =>
        have hc : ¬ (c2 = ',') := by
          simpa [firstTwoShapeOk] using hshape
        simp only [if_neg hc]
      case ident => rfl
      case group => rfl
      case litTok => rfl

/-- C9 witness: the two abort paths at concrete inputs. -/
theorem c9_input_shape_abort_witness :
    generate [] nilBindgen id id
        = Except.error ("invalid token length, " ++ INVALID_INPUT_ERROR_TEXT)
      ∧ generate [Tok.ident ("A"), Tok.ident ("B"), Tok.ident ("C")] nilBindgen id id
        = Except.error ("missing/invalid arguments to macro, " ++ INVALID_INPUT_ERROR_TEXT) :=
  ⟨(c9_input_shape_abort [] nilBindgen id id).1 (by decide),
   (c9_input_shape_abort [Tok.ident ("A"), Tok.ident ("B"), Tok.ident ("C")]
      nilBindgen id id).2.1 (by decide) rfl⟩

/-- C1 counterexample: two runs of the generator on the same input
tokens and the same tree, differing only in the iteration order of the
interface map (the second run sees the entries reversed, a
permutation of the same map contents), produce different outputs; in
the reversed run the methods are not emitted in the discovery order
of their source functions. -/
theorem c1_hash_order_counterexample :
    ((generate c1Tokens c1Bindgen id id).toOption
      ≠ (generate c1Tokens c1Bindgen List.reverse id).toOption)
    ∧ ((visit_items initVisitor c1Tree).import_trait_fns.reverse).Perm
        (visit_items initVisitor c1Tree).import_trait_fns := by
  constructor
  · decide
  · decide

/-- C1 amended: for every iteration order of the interface map, each
interface bucket lists exactly the lattice methods of that interface
in the discovery order of its collected functions (the emitted record
declarations, dispatch arms and trait methods of a block follow this
list); only the relative order of the per-interface blocks follows
the hash map iteration order. -/
theorem c1_per_interface_discovery_order (pkg : String) (tbl : List (String × List String))
    (entries : List (String × List Fn))
    (h1 : ∀ e ∈ entries, e.2 ≠ [])
    (h2 : (entries.map fun e => toUpperCamelCase e.1).Nodup) :
    build_lattice_methods_by_wit_interface pkg tbl entries
      = entries.map
          (fun e => (toUpperCamelCase e.1, e.2.map (buildLatticeMethod pkg tbl e.1))) := by
  unfold build_lattice_methods_by_wit_interface
  rw [build_foldl_nodup pkg tbl entries [] h1 h2 (by intro e _ e2 he2; cases he2)]
  rfl

/-- C1 witness: the two-interface map in both iteration orders keeps
each interface bucket in discovery order. -/
theorem c1_per_interface_discovery_order_witness :
    build_lattice_methods_by_wit_interface ("example") []
        [("iface_a", [faFn]), ("iface_b", [fbFn])]
      = [("iface_a", [faFn]), ("iface_b", [fbFn])].map
          (fun e => (toUpperCamelCase e.1, e.2.map (buildLatticeMethod ("example") [] e.1))) :=
  c1_per_interface_discovery_order ("example") [] [("iface_a", [faFn]), ("iface_b", [fbFn])]
    (by decide) (by decide)

/-- Helper: the serde extension leaves every attribute that is not an
outer derive list untouched. -/
theorem serdeExtendAttr_not_derive (a : Attr) (ha : isDeriveGroup a = false) :
    serdeExtendAttr a = a := by
  rcases a with ⟨outer, meta⟩
  cases meta with
  | list p toks =>
    cases outer with
    | false => rfl
    | true =>
      have hp : ¬ (p = "derive") := by simpa [isDeriveGroup] using ha
      simp [serdeExtendAttr, hp]
  | otherMeta => cases outer <;> rfl

/-- C6 counterexample: applying the serde extension twice to a
structure attribute that already has a derive group yields two
Serialize capability references where one application yields one, so
the augmentation is not idempotent and duplicates arise. -/
theorem c6_double_augment_counterexample :
    countSerializeRefs (attrTokens (serdeExtendAttr (serdeExtendAttr cloneDeriveAttr))) = 2
      ∧ countSerializeRefs (attrTokens (serdeExtendAttr cloneDeriveAttr)) = 1 := by
  constructor <;> rfl

/-- C6 amended: one application of the augmenter appends exactly one
serialize and one deserialize reference to an existing derive group
(so a second application duplicates them), and the augmenter never
creates a derive group: attributes without one, and structures whose
attributes all lack one, are left exactly as they are. -/
theorem c6_augmenter_behaviour :
    (∀ toks : List Tok,
      serdeExtendAttr { outer := true, meta := Meta.list ("derive") toks }
        = { outer := true, meta := Meta.list ("derive") (toks ++ serdeDeriveAppendToks) })
    ∧ (∀ a : Attr, isDeriveGroup a = false → serdeExtendAttr a = a)
    ∧ (∀ attrs : List Attr, (∀ a ∈ attrs, isDeriveGroup a = false) →
        serdeExtendAttrs attrs = attrs) := by
  refine ⟨?_, ?_, ?_⟩
  · intro toks
    simp [serdeExtendAttr]
  · exact serdeExtendAttr_not_derive
  · intro attrs h
    unfold serdeExtendAttrs
    calc attrs.map serdeExtendAttr
        = attrs.map id :=
          List.map_congr_left (fun a ha => serdeExtendAttr_not_derive a (h a ha))
      _ = attrs := List.map_id attrs

/-- C6 witness: the append on a derive group holding Clone, and the
identity on a non-derive attribute. -/
theorem c6_augmenter_behaviour_witness :
    serdeExtendAttr { outer := true, meta := Meta.list ("derive") [Tok.ident ("Clone")] }
        = { outer := true,
            meta := Meta.list ("derive") ([Tok.ident ("Clone")] ++ serdeDeriveAppendToks) }
      ∧ serdeExtendAttr { outer := false, meta := Meta.otherMeta }
        = { outer := false, meta := Meta.otherMeta } :=
  ⟨c6_augmenter_behaviour.1 [Tok.ident ("Clone")],
   c6_augmenter_behaviour.2.1 { outer := false, meta := Meta.otherMeta } rfl⟩

/-! Unfolding lemmas for the traversal, all definitional. -/

theorem visit_items_nil (v : WitBindgenOutputVisitor) : visit_items v Items.nil = v := rfl

theorem visit_items_cons (v : WitBindgenOutputVisitor) (i : Item) (rest : Items) :
    visit_items v (Items.cons i rest) = visit_items (visit_item_mut v i) rest := rfl

theorem visit_item_md_noBody (v : WitBindgenOutputVisitor) (name : String) :
    visit_item_mut v (Item.md name Content.noBody) = modHeader v name Content.noBody := rfl

theorem visit_item_md_body (v : WitBindgenOutputVisitor) (name : String) (items : Items) :
    visit_item_mut v (Item.md name (Content.body items)) =
      (let v3 := modHeader v name (Content.body items)
       let v4 := visit_items { v3 with parents := v3.parents ++ [name] } items
       { v4 with parents := v4.parents.dropLast }) := rfl

theorem visit_item_fn_unfold (v : WitBindgenOutputVisitor) (f : Fn) :
    visit_item_mut v (Item.fnItem f) =
      (match v.wit_package, v.parents.getLast? with
       | some pkg, some module_name =>
           if !(at_exported_module v) && at_grandchild_of_module v pkg then
             { v with import_trait_fns := pushAssoc v.import_trait_fns module_name f }
           else v
       | _, _ => v) := rfl

theorem visit_item_struct_unfold (v : WitBindgenOutputVisitor) (name : String)
    (attrs : List Attr) :
    visit_item_mut v (Item.structItem name attrs) =
      { v with serde_extended_structs :=
          insertAssoc v.serde_extended_structs name (v.parents ++ [name]) } := rfl

theorem visit_item_other_unfold (v : WitBindgenOutputVisitor) :
    visit_item_mut v Item.otherItem = v := rfl

/-- Visiting a function item changes at most the import table. -/
theorem visit_item_fn_shape (v : WitBindgenOutputVisitor) (f : Fn) :
    ∃ itf, visit_item_mut v (Item.fnItem f) = { v with import_trait_fns := itf } := by
  rw [visit_item_fn_unfold]
  split
  · split_ifs
    · exact ⟨_, rfl⟩
    · exact ⟨v.import_trait_fns, rfl⟩
  · exact ⟨v.import_trait_fns, rfl⟩

/-! Field lemmas for the header assignments. -/

theorem modHeader_parents (v : WitBindgenOutputVisitor) (name : String) (content : Content) :
    (modHeader v name content).parents = v.parents := by
  simp only [modHeader]
  split_ifs <;> rfl

theorem modHeader_wit_ns_of_ne_nil (v : WitBindgenOutputVisitor) (name : String)
    (content : Content) (h : v.parents ≠ []) :
    (modHeader v name content).wit_ns = v.wit_ns := by
  have h0 : ¬ (v.parents.length = 0 ∧ name ≠ EXPORTS_MODULE_NAME) :=
    fun hc => h (List.length_eq_zero.mp hc.1)
  simp only [modHeader, if_neg h0]
  split_ifs <;> rfl

theorem modHeader_nil (v : WitBindgenOutputVisitor) (name : String) (content : Content)
    (h : v.parents = []) :
    (modHeader v name content).wit_ns = (if name = EXPORTS_MODULE_NAME then v.wit_ns else some name)
      ∧ (modHeader v name content).wit_package = v.wit_package := by
  constructor <;> simp [modHeader, h, apply_ite] <;> split_ifs <;> simp_all

theorem modHeader_single (v : WitBindgenOutputVisitor) (p name : String) (content : Content)
    (h : v.parents = [p]) :
    (modHeader v name content).wit_ns = v.wit_ns
      ∧ (modHeader v name content).wit_package =
          (if v.wit_ns = some p ∧ p ≠ EXPORTS_MODULE_NAME then some name else v.wit_package) := by
  have h0 : ¬ (v.parents.length = 0 ∧ name ≠ EXPORTS_MODULE_NAME) := by
    rw [h]; simp
  have hchild : at_wit_ns_module_child v = decide (v.wit_ns = some p) := by
    simp [at_wit_ns_module_child, h, is_wit_ns]
  have hexp : at_exported_module v = decide (EXPORTS_MODULE_NAME = p) := by
    simp [at_exported_module, h]
  constructor
  · simp only [modHeader, if_neg h0]
    split_ifs <;> rfl
  · by_cases hc : v.wit_ns = some p ∧ p ≠ EXPORTS_MODULE_NAME
    · rw [if_pos hc]
      have hcode : v.parents.length = 1 ∧ at_wit_ns_module_child v = true
          ∧ ¬ (at_exported_module v = true) := by
        refine ⟨by rw [h]; rfl, ?_, ?_⟩
        · rw [hchild]; exact decide_eq_true hc.1
        · rw [hexp]
          simp only [decide_eq_true_eq]
          exact fun he => hc.2 he.symm
      simp only [modHeader, if_neg h0, if_pos hcode]
      split_ifs <;> rfl
    · rw [if_neg hc]
      have hcode : ¬ (v.parents.length = 1 ∧ at_wit_ns_module_child v = true
          ∧ ¬ (at_exported_module v = true)) := by
        intro hcode
        apply hc
        refine ⟨?_, ?_⟩
        · have := hcode.2.1
          rw [hchild] at this
          exact of_decide_eq_true this
        · have := hcode.2.2
          rw [hexp] at this
          simp only [decide_eq_true_eq] at this
          exact fun hpe => this hpe.symm
      simp only [modHeader, if_neg h0, if_neg hcode]
      split_ifs <;> rfl

theorem modHeader_wit_package_of_len (v : WitBindgenOutputVisitor) (name : String)
    (content : Content) (h : 2 <= v.parents.length) :
    (modHeader v name content).wit_package = v.wit_package := by
  have h0 : ¬ (v.parents.length = 0 ∧ name ≠ EXPORTS_MODULE_NAME) :=
    fun hc => absurd hc.1 (by omega)
  have h1 : ¬ (v.parents.length = 1 ∧ at_wit_ns_module_child v = true
      ∧ ¬ (at_exported_module v = true)) :=
    fun hc => absurd hc.1 (by omega)
  simp only [modHeader, if_neg h0, if_neg h1]
  split_ifs <;> rfl

end WitGen

namespace WitGen

/-! Preservation of the parent stack across the traversal. -/

mutual
theorem visit_item_parents (v : WitBindgenOutputVisitor) (i : Item) :
    (visit_item_mut v i).parents = v.parents := by
  cases i with
  | md name content =>
    cases content with
    | noBody => rw [visit_item_md_noBody, modHeader_parents]
    | body items =>
      rw [visit_item_md_body]
      dsimp only
      rw [visit_items_parents _ items]
      dsimp only
      rw [modHeader_parents]
      simp
  | fnItem f =>
    obtain ⟨itf, hh⟩ := visit_item_fn_shape v f
    rw [hh]
  | structItem name attrs => rw [visit_item_struct_unfold]
  | otherItem => rfl
theorem visit_items_parents (v : WitBindgenOutputVisitor) (is : Items) :
    (visit_items v is).parents = v.parents := by
  cases is with
  | nil => rfl
  | cons i rest =>
    rw [visit_items_cons, visit_items_parents _ rest, visit_item_parents v i]
end

/-! Preservation of the namespace below the root, and of the package
below level one. -/

mutual
theorem visit_item_ns_preserved (v : WitBindgenOutputVisitor) (i : Item)
    (h : v.parents ≠ []) : (visit_item_mut v i).wit_ns = v.wit_ns := by
  cases i with
  | md name content =>
    cases content with
    | noBody => rw [visit_item_md_noBody, modHeader_wit_ns_of_ne_nil _ _ _ h]
    | body items =>
      rw [visit_item_md_body]
      dsimp only
      rw [visit_items_ns_preserved _ items (by simp [modHeader_parents])]
      dsimp only
      rw [modHeader_wit_ns_of_ne_nil _ _ _ h]
  | fnItem f =>
    obtain ⟨itf, hh⟩ := visit_item_fn_shape v f
    rw [hh]
  | structItem name attrs => rw [visit_item_struct_unfold]
  | otherItem => rfl
theorem visit_items_ns_preserved (v : WitBindgenOutputVisitor) (is : Items)
    (h : v.parents ≠ []) : (visit_items v is).wit_ns = v.wit_ns := by
  cases is with
  | nil => rfl
  | cons i rest =>
    rw [visit_items_cons,
      visit_items_ns_preserved _ rest (by rw [visit_item_parents]; exact h),
      visit_item_ns_preserved v i h]
end

mutual
theorem visit_item_pkg_preserved (v : WitBindgenOutputVisitor) (i : Item)
    (h : 2 ≤ v.parents.length) : (visit_item_mut v i).wit_package = v.wit_package := by
  cases i with
  | md name content =>
    cases content with
    | noBody => rw [visit_item_md_noBody, modHeader_wit_package_of_len _ _ _ h]
    | body items =>
      rw [visit_item_md_body]
      dsimp only
      rw [visit_items_pkg_preserved _ items (by simp [modHeader_parents]; omega)]
      dsimp only
      rw [modHeader_wit_package_of_len _ _ _ h]
  | fnItem f =>
    obtain ⟨itf, hh⟩ := visit_item_fn_shape v f
    rw [hh]
  | structItem name attrs => rw [visit_item_struct_unfold]
  | otherItem => rfl
theorem visit_items_pkg_preserved (v : WitBindgenOutputVisitor) (is : Items)
    (h : 2 ≤ v.parents.length) : (visit_items v is).wit_package = v.wit_package := by
  cases is with
  | nil => rfl
  | cons i rest =>
    rw [visit_items_cons,
      visit_items_pkg_preserved _ rest (by rw [visit_item_parents]; exact h),
      visit_item_pkg_preserved v i h]
end


/-! Last-discovery bookkeeping. -/

theorem lastOr_cons (x : String) (l : List String) (d : Option String) :
    lastOr (x :: l) d = lastOr l (some x) := by
  cases l with
  | nil => simp [lastOr]
  | cons y l2 =>
    rcases hL : (y :: l2).getLast? with _ | z
    · exact absurd (List.getLast?_eq_none_iff.mp hL) (List.cons_ne_nil y l2)
    · simp [lastOr, List.getLast?_cons_cons, hL]

theorem lastOr_append (xs ys : List String) (d : Option String) :
    lastOr (xs ++ ys) d = lastOr ys (lastOr xs d) := by
  induction xs generalizing d with
  | nil => rfl
  | cons x xs ih => rw [List.cons_append, lastOr_cons, ih, lastOr_cons]

/-- Namespace update of a level-zero module visit. -/
theorem visit_item_md_top_ns (v : WitBindgenOutputVisitor) (name : String) (content : Content)
    (h : v.parents = []) :
    (visit_item_mut v (Item.md name content)).wit_ns
      = (if name = EXPORTS_MODULE_NAME then v.wit_ns else some name) := by
  cases content with
  | noBody => rw [visit_item_md_noBody]; exact (modHeader_nil v name _ h).1
  | body items =>
    rw [visit_item_md_body]
    dsimp only
    rw [visit_items_ns_preserved _ items (by simp [modHeader_parents])]
    dsimp only
    exact (modHeader_nil v name _ h).1

/-- Package discoveries along the item list directly beneath the
namespace module: every direct module child overwrites the package. -/
theorem visit_items_pkg_single (p : String) (children : Items) :
    ∀ v : WitBindgenOutputVisitor, v.parents = [p] →
      (visit_items v children).wit_package =
        (if v.wit_ns = some p ∧ p ≠ EXPORTS_MODULE_NAME
         then lastOr (childModNames children) v.wit_package
         else v.wit_package) := by
  cases children with
  | nil => intro v h; split_ifs <;> rfl
  | cons i rest =>
    intro v h
    rw [visit_items_cons]
    cases i with
    | md name content =>
      have hpar : (visit_item_mut v (Item.md name content)).parents = [p] := by
        rw [visit_item_parents]; exact h
      have hns_item : (visit_item_mut v (Item.md name content)).wit_ns = v.wit_ns :=
        visit_item_ns_preserved v _ (by rw [h]; simp)
      have hpkg_item : (visit_item_mut v (Item.md name content)).wit_package
          = (if v.wit_ns = some p ∧ p ≠ EXPORTS_MODULE_NAME then some name
             else v.wit_package) := by
        cases content with
        | noBody => rw [visit_item_md_noBody]; exact (modHeader_single v p name _ h).2
        | body items =>
          rw [visit_item_md_body]
          dsimp only
          rw [visit_items_pkg_preserved _ items (by simp [modHeader_parents, h])]
          dsimp only
          exact (modHeader_single v p name _ h).2
      rw [visit_items_pkg_single p rest _ hpar, hns_item, hpkg_item]
      by_cases hc : v.wit_ns = some p ∧ p ≠ EXPORTS_MODULE_NAME
      · rw [if_pos hc, if_pos hc, if_pos hc,
          show childModNames (Items.cons (Item.md name content) rest)
            = name :: childModNames rest from rfl,
          lastOr_cons]
      · rw [if_neg hc, if_neg hc, if_neg hc]
    | fnItem f =>
      obtain ⟨itf, hh⟩ := visit_item_fn_shape v f
      rw [hh]
      exact visit_items_pkg_single p rest _ h
    | structItem name attrs =>
      rw [visit_item_struct_unfold]
      exact visit_items_pkg_single p rest _ h
    | otherItem =>
      rw [visit_item_other_unfold]
      exact visit_items_pkg_single p rest _ h

/-- The recorded namespace after a full traversal from the root is the
last level-zero module name other than exports. -/
theorem visit_items_ns_top (is : Items) :
    ∀ v : WitBindgenOutputVisitor, v.parents = [] →
      (visit_items v is).wit_ns = lastOr (nsNamesTop is) v.wit_ns := by
  cases is with
  | nil => intro v h; rfl
  | cons i rest =>
    intro v h
    rw [visit_items_cons]
    cases i with
    | md name content =>
      rw [visit_items_ns_top rest _ (by rw [visit_item_parents]; exact h),
        visit_item_md_top_ns v name content h]
      by_cases hname : name = EXPORTS_MODULE_NAME
      · rw [if_pos hname,
          show nsNamesTop (Items.cons (Item.md name content) rest)
            = (if name ≠ EXPORTS_MODULE_NAME then [name] else []) ++ nsNamesTop rest from rfl]
        simp [hname]
      · rw [if_neg hname,
          show nsNamesTop (Items.cons (Item.md name content) rest)
            = (if name ≠ EXPORTS_MODULE_NAME then [name] else []) ++ nsNamesTop rest from rfl,
          if_pos hname, List.singleton_append, lastOr_cons]
    | fnItem f =>
      obtain ⟨itf, hh⟩ := visit_item_fn_shape v f
      rw [hh]
      exact visit_items_ns_top rest _ h
    | structItem name attrs =>
      rw [visit_item_struct_unfold]
      exact visit_items_ns_top rest _ h
    | otherItem =>
      rw [visit_item_other_unfold]
      exact visit_items_ns_top rest _ h

/-- Package update of a level-zero module visit, assuming the current
namespace is not the reserved exports name. -/
theorem visit_item_md_top_pkg (v : WitBindgenOutputVisitor) (name : String) (content : Content)
    (h : v.parents = []) (hns : v.wit_ns ≠ some EXPORTS_MODULE_NAME) :
    (visit_item_mut v (Item.md name content)).wit_package
      = (match content with
         | Content.noBody => v.wit_package
         | Content.body children =>
             if name = EXPORTS_MODULE_NAME then v.wit_package
             else lastOr (childModNames children) v.wit_package) := by
  cases content with
  | noBody => rw [visit_item_md_noBody]; exact (modHeader_nil v name _ h).2
  | body children =>
    rw [visit_item_md_body]
    dsimp only
    rw [visit_items_pkg_single name children _ (by simp [modHeader_parents, h])]
    dsimp only
    rw [(modHeader_nil v name _ h).1, (modHeader_nil v name _ h).2]
    by_cases hname : name = EXPORTS_MODULE_NAME
    · rw [if_pos hname, if_pos hname, if_neg (by simp [hname])]
    · rw [if_neg hname, if_neg hname, if_pos (by simp [hname])]

/-- The recorded package after a full traversal from the root is the
last direct module child of a level-zero non-exports module. -/
theorem visit_items_pkg_top (is : Items) :
    ∀ v : WitBindgenOutputVisitor, v.parents = [] → v.wit_ns ≠ some EXPORTS_MODULE_NAME →
      (visit_items v is).wit_package = lastOr (pkgNamesTop is) v.wit_package := by
  cases is with
  | nil => intro v h hns; rfl
  | cons i rest =>
    intro v h hns
    rw [visit_items_cons]
    cases i with
    | md name content =>
      have hns_after : (visit_item_mut v (Item.md name content)).wit_ns
          ≠ some EXPORTS_MODULE_NAME := by
        rw [visit_item_md_top_ns v name content h]
        by_cases hname : name = EXPORTS_MODULE_NAME
        · rw [if_pos hname]; exact hns
        · rw [if_neg hname]
          intro hcontra
          exact hname (by injection hcontra)
      rw [visit_items_pkg_top rest _ (by rw [visit_item_parents]; exact h) hns_after,
        visit_item_md_top_pkg v name content h hns]
      cases content with
      | noBody =>
        dsimp only
        rw [show pkgNamesTop (Items.cons (Item.md name Content.noBody) rest)
          = pkgNamesTop rest from rfl]
      | body children =>
        dsimp only
        by_cases hname : name = EXPORTS_MODULE_NAME
        · rw [if_pos hname,
            show pkgNamesTop (Items.cons (Item.md name (Content.body children)) rest)
              = (if name ≠ EXPORTS_MODULE_NAME then childModNames children else [])
                  ++ pkgNamesTop rest from rfl,
            if_neg (fun hcon => hcon hname), List.nil_append]
        · rw [if_neg hname,
            show pkgNamesTop (Items.cons (Item.md name (Content.body children)) rest)
              = (if name ≠ EXPORTS_MODULE_NAME then childModNames children else [])
                  ++ pkgNamesTop rest from rfl,
            if_pos hname, lastOr_append]
    | fnItem f =>
      obtain ⟨itf, hh⟩ := visit_item_fn_shape v f
      rw [hh]
      exact visit_items_pkg_top rest _ h hns
    | structItem name attrs =>
      rw [visit_item_struct_unfold]
      exact visit_items_pkg_top rest _ h hns
    | otherItem =>
      rw [visit_item_other_unfold]
      exact visit_items_pkg_top rest _ h hns

/-- A tree with no namespace discovery has no package discovery. -/
theorem nsNamesTop_nil_pkgNamesTop (is : Items) (h : nsNamesTop is = []) :
    pkgNamesTop is = [] := by
  cases is with
  | nil => rfl
  | cons i rest =>
    cases i with
    | md name content =>
      have hcons : (if name ≠ EXPORTS_MODULE_NAME then [name] else []) ++ nsNamesTop rest
          = [] := h
      by_cases hname : name = EXPORTS_MODULE_NAME
      · have hrest : nsNamesTop rest = [] := by
          rw [if_neg (by simp [hname])] at hcons
          exact hcons
        cases content with
        | noBody => exact nsNamesTop_nil_pkgNamesTop rest hrest
        | body children =>
          show (if name ≠ EXPORTS_MODULE_NAME then childModNames children else [])
              ++ pkgNamesTop rest = []
          rw [if_neg (by simp [hname]), nsNamesTop_nil_pkgNamesTop rest hrest]
          rfl
      · exfalso
        rw [if_pos hname] at hcons
        exact List.cons_ne_nil _ _ hcons
    | fnItem f => exact nsNamesTop_nil_pkgNamesTop rest h
    | structItem name attrs => exact nsNamesTop_nil_pkgNamesTop rest h
    | otherItem => exact nsNamesTop_nil_pkgNamesTop rest h


/-- C5 counterexample: in a tree with two level-zero modules the
recorded namespace is the second, not the first-discovered one, and
in a tree with two package modules beneath the namespace the recorded
package is the second; both assignments overwrite earlier values. -/
theorem c5_overwrite_counterexample :
    (visit_items initVisitor twoNsTree).wit_ns = some ("beta")
      ∧ nsNamesTop twoNsTree = ["alpha", "beta"]
      ∧ (visit_items initVisitor twoNsTree).wit_ns ≠ (nsNamesTop twoNsTree).head?
      ∧ (visit_items initVisitor twoPkgTree).wit_package = some ("p2")
      ∧ pkgNamesTop twoPkgTree = ["p1", "p2"]
      ∧ (visit_items initVisitor twoPkgTree).wit_package ≠ (pkgNamesTop twoPkgTree).head? :=
  ⟨rfl, rfl, by decide, rfl, rfl, by decide⟩

/-- C5 amended: the namespace and package assignments are
unconditional overwrites, so for every input tree the recorded
namespace is the last-discovered level-zero module name other than
exports, and the recorded package is the last-discovered direct
module child of a level-zero non-exports module (none when no such
discovery happens). -/
theorem c5_last_discovery_wins (is : Items) :
    (visit_items initVisitor is).wit_ns = lastOr (nsNamesTop is) none
      ∧ (visit_items initVisitor is).wit_package = lastOr (pkgNamesTop is) none :=
  ⟨visit_items_ns_top is initVisitor rfl,
   visit_items_pkg_top is initVisitor rfl (fun hc => Option.noConfusion hc)⟩

/-- C8: when the tree holds no namespace root (no level-zero module
other than exports), no package is ever recorded, and generation
aborts with the fatal diagnostic before the transformation pass,
producing no output declarations. -/
theorem c8_no_namespace_fatal (is : Items)
    (h : nsNamesTop is = [])
    (r1 : List (String × List Fn) → List (String × List Fn))
    (r2 : List (String × List LatticeMethod) → List (String × List LatticeMethod)) :
    generateFromTree is r1 r2
      = Except.error ("failed to parse top-level WIT package name while reading bindgen output") := by
  have hpkg : (visit_items initVisitor is).wit_package = none := by
    rw [visit_items_pkg_top is initVisitor rfl (fun hc => Option.noConfusion hc),
      nsNamesTop_nil_pkgNamesTop is h]
    rfl
  simp only [generateFromTree]
  rw [hpkg]

/-- C8 witness: the fatal abort on a tree whose only level-zero module
is the exports module. -/
theorem c8_no_namespace_fatal_witness :
    generateFromTree exportsOnlyTree id id
      = Except.error ("failed to parse top-level WIT package name while reading bindgen output") :=
  c8_no_namespace_fatal exportsOnlyTree (by decide) id id

end WitGen
